import Mathlib

/-!
Shallow embedding of the LenteXhibit backend (Express + Mongoose REST API).

The document collections (Work, Theme, Vote, Portfolio, User) are embedded as
Lean structures over `Nat` document ids and `Int` timestamps / counters
(JavaScript `Date` values compare numerically; counters are JS numbers that the
routes manipulate with `+ 1`, `- 1` and `Math.max(_, 0)`).

Route handlers become pure functions from an explicit store state to a pair of
an HTTP status code and the updated state.  Mongoose single-document `save()` /
`findOneAndDelete()` / `updateOne()` calls become first-match list updates.
-/

namespace LenteXhibit

/-- Work document (`workSchema` in `Backend/models`): category, owning user,
denormalized `voteCount`, optional theme link, creation timestamp. -/
structure Work where
  id : Nat
  category : String
  userId : Nat
  voteCount : Int
  themeId : Option Nat
  createdAt : Int
  deriving Repr, DecidableEq

/-- `themeSchema.status` enum: `Upcoming`/`Active`/`Ended` (Backend variant). -/
inductive ThemeStatus
  | Upcoming
  | Active
  | Ended
  deriving Repr, DecidableEq

/-- Theme document (`themeSchema` in `Backend/models`): category, start/end
dates, stored status, list of submitted Work ids. -/
structure Theme where
  id : Nat
  category : String
  startDate : Int
  endDate : Int
  status : ThemeStatus
  submissions : List Nat
  deriving Repr, DecidableEq

/-- Vote document (`voteSchema`): (user, work, theme-or-null) triple. -/
structure Vote where
  userId : Nat
  workId : Nat
  themeId : Option Nat
  deriving Repr, DecidableEq

/-- Portfolio document (`portfolioSchema`): owning user, list of Work ids,
denormalized `totalVotes`. -/
structure Portfolio where
  userId : Nat
  works : List Nat
  totalVotes : Int
  deriving Repr, DecidableEq

/-- User document (`userSchema`), reduced to the fields the modelled routes
read: id and `userType`. -/
structure User where
  id : Nat
  userType : String
  deriving Repr, DecidableEq

/-- The document store: one list per collection. -/
structure AppState where
  users : List User
  works : List Work
  votes : List Vote
  portfolios : List Portfolio
  themes : List Theme
  deriving Repr, DecidableEq

/-- Mongoose `doc.save()` / `Model.updateOne(filter, ...)`: rewrite the first
document matching the filter (documents are keyed by a unique `_id`). -/
def updateFirst (p : α → Bool) (f : α → α) : List α → List α
  | [] => []
  | x :: xs => if p x then f x :: xs else x :: updateFirst p f xs

/-- Mongoose `Model.findOneAndDelete(filter)` deletion effect: remove the first
document matching the filter. -/
def removeFirst (p : α → Bool) : List α → List α
  | [] => []
  | x :: xs => if p x then xs else x :: removeFirst p xs

/-- `Work.findById(workId)`. -/
def findWork (s : AppState) (workId : Nat) : Option Work :=
  s.works.find? (fun w => w.id == workId)

/-- `Theme.findById(themeId)`. -/
def findTheme (s : AppState) (themeId : Nat) : Option Theme :=
  s.themes.find? (fun t => t.id == themeId)

/-- `User.findById(userId)`. -/
def findUser (s : AppState) (userId : Nat) : Option User :=
  s.users.find? (fun u => u.id == userId)

/-- `Vote.findOne({ userId, workId })` — the duplicate-vote pre-check of
`POST /api/votes` keys on the (user, work) pair only. -/
def findVote (votes : List Vote) (userId workId : Nat) : Option Vote :=
  votes.find? (fun v => v.userId == userId && v.workId == workId)

/-! ## Rankings (`GET /api/works/rankings/:category`)

```
const query = category === 'All' ? {} : { category };
const works = await Work.find(query)
    .sort({ voteCount: -1, createdAt: -1 })
    .limit(parseInt(limit));
```
-/

/-- The total preorder realised by `.sort({ voteCount: -1, createdAt: -1 })`:
higher `voteCount` first, and among equal `voteCount` the *later* `createdAt`
first. -/
def RankLE (a b : Work) : Prop :=
  b.voteCount < a.voteCount ∨ (a.voteCount = b.voteCount ∧ b.createdAt ≤ a.createdAt)

instance : DecidableRel RankLE := fun a b => by
  unfold RankLE; exact inferInstance

instance : IsTotal Work RankLE where
  total a b := by
    rcases lt_trichotomy a.voteCount b.voteCount with h | h | h
    · exact Or.inr (Or.inl h)
    · rcases le_total b.createdAt a.createdAt with h2 | h2
      · exact Or.inl (Or.inr ⟨h, h2⟩)
      · exact Or.inr (Or.inr ⟨h.symm, h2⟩)
    · exact Or.inl (Or.inl h)

instance : IsTrans Work RankLE where
  trans a b c hab hbc := by
    rcases hab with h1 | ⟨e1, l1⟩
    · rcases hbc with h2 | ⟨e2, l2⟩
      · exact Or.inl (h2.trans h1)
      · exact Or.inl (e2 ▸ h1)
    · rcases hbc with h2 | ⟨e2, l2⟩
      · exact Or.inl (e1 ▸ h2)
      · exact Or.inr ⟨e1.trans e2, l2.trans l1⟩

/-- `GET /api/works/rankings/:category`: filter by category (none for `"All"`),
sort by the Mongo sort key `{ voteCount: -1, createdAt: -1 }`, truncate. -/
def rankings (category : String) (limit : Nat) (works : List Work) : List Work :=
  (List.insertionSort RankLE
    (if category = "All" then works
     else works.filter (fun w => w.category == category))).take limit

/-- The ranking order the SPEC asserts (transcribed from its words, to compare
with the code): `voteCount` descending and, among equal `voteCount`, the
*earlier* `createdAt` first. -/
def SpecRankLE (a b : Work) : Prop :=
  b.voteCount < a.voteCount ∨ (a.voteCount = b.voteCount ∧ a.createdAt ≤ b.createdAt)

instance : DecidableRel SpecRankLE := fun a b => by
  unfold SpecRankLE; exact inferInstance

/-! ## Voting (`POST /api/votes`, `DELETE /api/votes/:workId`)

`POST /api/votes` (Backend `routes/votes.js`):
work missing → 404; `Vote.findOne({userId, workId})` hit → **400**
("You have already voted for this work"); otherwise save the new Vote with
`themeId: themeId || null`, set `work.voteCount = (work.voteCount || 0) + 1`,
and if the owner has a Portfolio set
`portfolio.totalVotes = (portfolio.totalVotes || 0) + 1`. -/

/-- `POST /api/votes` handler body: returns the HTTP status and the new state. -/
def postVote (s : AppState) (userId workId : Nat) (themeId : Option Nat) :
    Nat × AppState :=
  match findWork s workId with
  | none => (404, s)
  | some work =>
    match findVote s.votes userId workId with
    | some _ => (400, s)
    | none =>
      let newVote : Vote := ⟨userId, workId, themeId⟩
      let works := updateFirst (fun w => w.id == workId)
        (fun w => { w with voteCount := w.voteCount + 1 }) s.works
      let portfolios := updateFirst (fun p => p.userId == work.userId)
        (fun p => { p with totalVotes := p.totalVotes + 1 }) s.portfolios
      (200, { s with works := works, votes := s.votes ++ [newVote],
                     portfolios := portfolios })

/-- `DELETE /api/votes/:workId` handler body: `Vote.findOneAndDelete` → 404
when absent; otherwise decrement `voteCount` and `totalVotes` with
`Math.max(_ - 1, 0)`, skipping both when the Work no longer exists. -/
def deleteVote (s : AppState) (userId workId : Nat) : Nat × AppState :=
  match findVote s.votes userId workId with
  | none => (404, s)
  | some _ =>
    let votes := removeFirst (fun v => v.userId == userId && v.workId == workId)
      s.votes
    match findWork s workId with
    | none => (200, { s with votes := votes })
    | some work =>
      let works := updateFirst (fun w => w.id == workId)
        (fun w => { w with voteCount := max (w.voteCount - 1) 0 }) s.works
      let portfolios := updateFirst (fun p => p.userId == work.userId)
        (fun p => { p with totalVotes := max (p.totalVotes - 1) 0 }) s.portfolios
      (200, { s with works := works, votes := votes, portfolios := portfolios })

/-! ## Theme status derivation

Backend `GET /api/themes` recomputes each theme's status inline:

```
let newStatus = theme.status;
if (now < startDate)                          newStatus = 'Upcoming';
else if (now >= startDate && now <= endDate)  newStatus = 'Active';
else if (now > endDate)                       newStatus = 'Ended';
if (newStatus !== theme.status) { theme.status = newStatus; await theme.save(); }
```

`Login Backend/models/VotingTheme.js` has the method variant `updateStatus`
with labels upcoming/active/closed and a plain `else` third branch. -/

/-- The Backend inline status chain: starts from the stored status and
reassigns through the `if`/`else if` cascade. -/
def newStatusFor (stored : ThemeStatus) (startDate endDate now : Int) :
    ThemeStatus :=
  if now < startDate then .Upcoming
  else if startDate ≤ now ∧ now ≤ endDate then .Active
  else if endDate < now then .Ended
  else stored

/-- One theme's slice of the `GET /api/themes` read: report (and persist when
changed) the recomputed status; every other field is untouched. -/
def readTheme (th : Theme) (now : Int) : Theme :=
  { th with status := newStatusFor th.status th.startDate th.endDate now }

/-- `votingThemeSchema.status` enum of the Login Backend variant. -/
inductive VStatus
  | upcoming
  | active
  | closed
  deriving Repr, DecidableEq

/-- `votingThemeSchema.methods.updateStatus`: upcoming / active / closed purely
from the current time against the dates (the third branch is a bare `else`). -/
def updateStatus (startDate endDate now : Int) : VStatus :=
  if now < startDate then .upcoming
  else if startDate ≤ now ∧ now ≤ endDate then .active
  else .closed

/-! ## Theme closure and winner determination
(`Login Backend/routes/portfolios.js`, themes router section)

`GET /` walks the themes; a theme past its `endDate` that is not yet closed is
set to `closed`, and if `winnerWorkId` is unset, `determineWinner(theme)`
tallies the theme-scoped votes per work (`voteCounts[workId] =
(voteCounts[workId] || 0) + 1`) and takes the first strict maximum over
`Object.entries(voteCounts)` (insertion = first-encounter order). -/

/-- VotingTheme document of the Login Backend variant (fields the themes
router reads). -/
structure VTheme where
  id : Nat
  startDate : Int
  endDate : Int
  status : VStatus
  winnerWorkId : Option Nat
  deriving Repr, DecidableEq

/-- `voteCounts[workId] = (voteCounts[workId] || 0) + 1` on an assoc list whose
key order is JS object insertion order (first encounter). -/
def bump (workId : Nat) : List (Nat × Nat) → List (Nat × Nat)
  | [] => [(workId, 1)]
  | (k, c) :: rest =>
    if k = workId then (k, c + 1) :: rest else (k, c) :: bump workId rest

/-- The `voteCounts` object built by `determineWinner`'s first loop. -/
def tally (workIds : List Nat) : List (Nat × Nat) :=
  workIds.foldl (fun acc w => bump w acc) []

/-- `determineWinner`'s second loop: `maxVotes = 0; winnerWorkId = null;` then
`if (count > maxVotes)` over the entries in order. -/
def pickWinner : Option Nat × Nat → List (Nat × Nat) → Option Nat × Nat
  | best, [] => best
  | best, e :: rest =>
    pickWinner (if best.2 < e.2 then (some e.1, e.2) else best) rest

/-- `determineWinner(theme)`: no votes → return untouched; otherwise store the
picked winner when one was found (`if (winnerWorkId) ...`). -/
def determineWinner (th : VTheme) (themeVotes : List Vote) : VTheme :=
  if themeVotes.length = 0 then th
  else
    match (pickWinner (none, 0) (tally (themeVotes.map (·.workId)))).1 with
    | some w => { th with winnerWorkId := some w }
    | none => th

/-- One theme's slice of the Login Backend `GET /` themes listing: the lazy
status transition, with winner determination on the first transition to
`closed` (`if (!theme.winnerWorkId) await determineWinner(theme)`). -/
def themeListStep (th : VTheme) (votes : List Vote) (now : Int) : VTheme :=
  if now < th.startDate ∧ th.status ≠ .upcoming then
    { th with status := .upcoming }
  else if th.startDate ≤ now ∧ now ≤ th.endDate ∧ th.status ≠ .active then
    { th with status := .active }
  else if th.endDate < now ∧ th.status ≠ .closed then
    let th1 := { th with status := VStatus.closed }
    if th1.winnerWorkId = none then
      determineWinner th1 (votes.filter (fun v => v.themeId == some th.id))
    else th1
  else th

/-- Number of Votes scoped to a given theme that target a given work
(`Vote.find({ themeId })` then count per `workId`). -/
def themeVoteCount (votes : List Vote) (themeId : Nat) (workId : Nat) : Nat :=
  (votes.filter (fun v => v.themeId == some themeId && v.workId == workId)).length

/-! ## Work submission to a theme (`POST /api/themes/:id/submit`)

Check order in the handler: theme found (404) → `theme.status !== 'Active'`
(400) → `workId` present (400) → work found (404) → ownership (403) →
`theme.category !== 'All' && work.category !== theme.category` (400) →
`theme.submissions.includes(workId)` (400) → push the work id onto
`theme.submissions`, set `work.themeId = theme._id`, save both. -/

/-- `POST /api/themes/:id/submit` handler body. -/
def submitWork (s : AppState) (sessionUserId themeId : Nat)
    (workId : Option Nat) : Nat × AppState :=
  match findTheme s themeId with
  | none => (404, s)
  | some theme =>
    if theme.status ≠ .Active then (400, s)
    else
      match workId with
      | none => (400, s)
      | some wid =>
        match findWork s wid with
        | none => (404, s)
        | some work =>
          if work.userId ≠ sessionUserId then (403, s)
          else if theme.category ≠ "All" ∧ work.category ≠ theme.category then
            (400, s)
          else if wid ∈ theme.submissions then (400, s)
          else
            let themes := updateFirst (fun t => t.id == themeId)
              (fun t => { t with submissions := t.submissions ++ [wid] }) s.themes
            let works := updateFirst (fun w => w.id == wid)
              (fun w => { w with themeId := some theme.id }) s.works
            (200, { s with themes := themes, works := works })

/-! ## Work deletion (`DELETE /api/works/:id`)

Owner-or-admin check, then
`Portfolio.updateOne({ userId: work.userId }, { $pull: { works: work._id } })`
and `Work.findByIdAndDelete`.  Nothing touches `Theme.submissions` here. -/

/-- `DELETE /api/works/:id` handler body.  A missing session user makes
`user.userType` throw, caught as 500. -/
def deleteWork (s : AppState) (sessionUserId workId : Nat) : Nat × AppState :=
  match findWork s workId with
  | none => (404, s)
  | some work =>
    match findUser s sessionUserId with
    | none => (500, s)
    | some user =>
      if work.userId ≠ sessionUserId ∧ user.userType ≠ "admin" then (403, s)
      else
        let portfolios := updateFirst (fun p => p.userId == work.userId)
          (fun p => { p with works := p.works.filter (fun wid => wid ≠ workId) })
          s.portfolios
        let works := removeFirst (fun w => w.id == workId) s.works
        (200, { s with works := works, portfolios := portfolios })

/-! ## Operation sequences and store invariants -/

/-- The state-mutating operations of the modelled routes. -/
inductive Op
  | vote (userId workId : Nat) (themeId : Option Nat)
  | unvote (userId workId : Nat)
  | submit (sessionUserId themeId workId : Nat)
  | delWork (sessionUserId workId : Nat)
  deriving Repr, DecidableEq

/-- Apply one operation (keeping only the resulting state). -/
def applyOp (s : AppState) : Op → AppState
  | .vote u w t => (postVote s u w t).2
  | .unvote u w => (deleteVote s u w).2
  | .submit sid tid wid => (submitWork s sid tid (some wid)).2
  | .delWork sid wid => (deleteWork s sid wid).2

/-- Run a sequence of operations. -/
def runOps (s : AppState) : List Op → AppState :=
  List.foldl applyOp s

/-- States reachable through the modelled routes from a store whose Vote
collection is empty. -/
def Reachable (s : AppState) : Prop :=
  ∃ init ops, init.votes = [] ∧ s = runOps init ops

/-- Every denormalized counter is non-negative. -/
def countersNonneg (s : AppState) : Prop :=
  (∀ w ∈ s.works, 0 ≤ w.voteCount) ∧ (∀ p ∈ s.portfolios, 0 ≤ p.totalVotes)

/-- Number of Votes carrying exactly a given (user, work, theme-or-null) key. -/
def countVotesKey (votes : List Vote) (u w : Nat) (t : Option Nat) : Nat :=
  (votes.filter (fun v => v.userId == u && v.workId == w && v.themeId == t)).length

/-- The uniqueness invariant of the Vote collection: at most one unscoped Vote
per (user, work) pair and at most one scoped Vote per (user, work, theme)
triple (the unique indexes `{userId, workId}` resp.
`{userId, workId, themeId}`). -/
def VoteKeyUnique (votes : List Vote) : Prop :=
  (∀ u w, countVotesKey votes u w none ≤ 1) ∧
  (∀ u w t, countVotesKey votes u w (some t) ≤ 1)

/-! ## Helper lemmas about the store-update primitives -/

theorem updateFirst_forall {α : Type} {P : α → Prop} (p : α → Bool) (f : α → α)
    (l : List α) (hl : ∀ x ∈ l, P x) (hf : ∀ x, P x → P (f x)) :
    ∀ x ∈ updateFirst p f l, P x := by
  induction l with
  | nil => intro x hx; simp [updateFirst] at hx
  | cons a t ih =>
    intro x hx
    rw [updateFirst] at hx
    by_cases hpa : p a
    · rw [if_pos hpa] at hx
      rcases List.mem_cons.mp hx with h | h
      · exact h ▸ hf a (hl a (List.mem_cons_self a t))
      · exact hl x (List.mem_cons_of_mem a h)
    · rw [if_neg hpa] at hx
      rcases List.mem_cons.mp hx with h | h
      · exact h ▸ hl a (List.mem_cons_self a t)
      · exact ih (fun y hy => hl y (List.mem_cons_of_mem a hy)) x h

theorem removeFirst_sublist {α : Type} (p : α → Bool) (l : List α) :
    List.Sublist (removeFirst p l) l := by
  induction l with
  | nil => simp [removeFirst]
  | cons a t ih =>
    rw [removeFirst]
    by_cases hpa : p a
    · rw [if_pos hpa]; exact List.sublist_cons_self a t
    · rw [if_neg hpa]; exact List.Sublist.cons₂ a ih

theorem find?_updateFirst_self {α : Type} (p : α → Bool) (f : α → α)
    (l : List α) (x : α) (hx : l.find? p = some x) (hfx : p (f x) = true) :
    (updateFirst p f l).find? p = some (f x) := by
  induction l with
  | nil => simp [List.find?] at hx
  | cons a t ih =>
    by_cases hpa : p a
    · rw [List.find?_cons_of_pos _ hpa] at hx
      have hax : a = x := Option.some.inj hx
      subst hax
      rw [updateFirst, if_pos hpa, List.find?_cons_of_pos _ hfx]
    · rw [List.find?_cons_of_neg _ hpa] at hx
      rw [updateFirst, if_neg hpa, List.find?_cons_of_neg _ hpa]
      exact ih hx

/-! ## C1 — Rankings ordering -/

/-- C1 (counterexample): two Works with equal `voteCount` where the second was
created later; the code ranks the later one first, violating the claimed
earlier-`createdAt`-first tie-break. -/
theorem rankings_tiebreak_createdAt_desc_cex :
    (⟨1, "Photos", 2, 5, none, 1⟩ : Work).voteCount
        = (⟨2, "Photos", 2, 5, none, 2⟩ : Work).voteCount ∧
    (⟨1, "Photos", 2, 5, none, 1⟩ : Work).createdAt
        < (⟨2, "Photos", 2, 5, none, 2⟩ : Work).createdAt ∧
    rankings "All" 10 [⟨1, "Photos", 2, 5, none, 1⟩, ⟨2, "Photos", 2, 5, none, 2⟩]
        = [⟨2, "Photos", 2, 5, none, 2⟩, ⟨1, "Photos", 2, 5, none, 1⟩] ∧
    ¬ List.Pairwise SpecRankLE
        (rankings "All" 10
          [⟨1, "Photos", 2, 5, none, 1⟩, ⟨2, "Photos", 2, 5, none, 2⟩]) := by
  decide

/-- C1 (amended): `rankings` returns the Works of the category (all when
`"All"`), sorted by `voteCount` descending with `createdAt` *descending* as the
tie-break (the later submission first), truncated to the limit: the output is
sorted under `RankLE`, has length at most the limit, is an initial segment of a
permutation of the filtered collection, and every element matches the
category. -/
theorem rankings_sorted_desc_recent_first (category : String) (limit : Nat)
    (works : List Work) :
    List.Pairwise RankLE (rankings category limit works) ∧
    (rankings category limit works).length ≤ limit ∧
    ((rankings category limit works) ++
        (List.insertionSort RankLE (if category = "All" then works
          else works.filter (fun w => w.category == category))).drop limit).Perm
      (if category = "All" then works
       else works.filter (fun w => w.category == category)) ∧
    (∀ w ∈ rankings category limit works,
      category = "All" ∨ w.category = category) := by
  refine ⟨?_, ?_, ?_, ?_⟩
  · exact List.Pairwise.sublist (List.take_sublist _ _)
      (List.sorted_insertionSort RankLE _)
  · exact List.length_take_le _ _
  · rw [rankings, List.take_append_drop]
    exact List.perm_insertionSort RankLE _
  · intro w hw
    have hmem : w ∈ List.insertionSort RankLE (if category = "All" then works
        else works.filter (fun w => w.category == category)) :=
      List.take_subset _ _ hw
    rw [List.mem_insertionSort] at hmem
    by_cases hcat : category = "All"
    · exact Or.inl hcat
    · rw [if_neg hcat] at hmem
      exact Or.inr (by simpa using (List.mem_filter.mp hmem).2)

/-- C1 witness: the amended theorem evaluated at a concrete category, limit and
work list. -/
theorem rankings_sorted_desc_recent_first_witness :
    ("Photos" = "All" ∨ (⟨1, "Photos", 2, 5, none, 1⟩ : Work).category = "Photos") :=
  (rankings_sorted_desc_recent_first "Photos" 1 [⟨1, "Photos", 2, 5, none, 1⟩]).2.2.2
    ⟨1, "Photos", 2, 5, none, 1⟩ (by decide)

/-! ## C2 — Duplicate vote rejection -/

/-- C2 (counterexample): a store where user 3 already holds the Vote
(3, work 1, theme 5); a second `POST /api/votes` by user 3 for that key is
rejected with status 400 — not 409 (`Conflict`) as claimed — and the state is
unchanged. -/
theorem duplicate_vote_not_409_cex :
    (⟨3, 1, some 5⟩ : Vote) ∈
        (⟨[], [⟨1, "Photos", 2, 1, none, 0⟩], [⟨3, 1, some 5⟩], [],
          []⟩ : AppState).votes ∧
    (postVote ⟨[], [⟨1, "Photos", 2, 1, none, 0⟩], [⟨3, 1, some 5⟩], [], []⟩
        3 1 (some 5)).1 = 400 ∧
    (postVote ⟨[], [⟨1, "Photos", 2, 1, none, 0⟩], [⟨3, 1, some 5⟩], [], []⟩
        3 1 (some 5)).1 ≠ 409 ∧
    (postVote ⟨[], [⟨1, "Photos", 2, 1, none, 0⟩], [⟨3, 1, some 5⟩], [], []⟩
        3 1 (some 5)).2
      = ⟨[], [⟨1, "Photos", 2, 1, none, 0⟩], [⟨3, 1, some 5⟩], [], []⟩ := by
  decide

/-- C2 (amended): when the Work exists and a Vote already exists for the
(user, work, theme) key, a second vote request is rejected with status 400
(the handler's duplicate pre-check, which keys on (user, work)) and the state —
hence the Work's `voteCount` — is left unchanged. -/
theorem duplicate_vote_rejected_400 (s : AppState) (u wid : Nat)
    (t : Option Nat) (w : Work) (hw : findWork s wid = some w)
    (hv : ∃ v ∈ s.votes, v.userId = u ∧ v.workId = wid ∧ v.themeId = t) :
    (postVote s u wid t).1 = 400 ∧ (postVote s u wid t).2 = s := by
  obtain ⟨v, hvmem, hu, hwid, ht⟩ := hv
  have hne : findVote s.votes u wid ≠ none := by
    intro hnone
    rw [findVote, List.find?_eq_none] at hnone
    exact hnone v hvmem (by simp [hu, hwid])
  cases hfv : findVote s.votes u wid with
  | none => exact absurd hfv hne
  | some v2 => simp [postVote, hw, hfv]

/-- C2 witness: the amended theorem applied at the counterexample store. -/
theorem duplicate_vote_rejected_400_witness :
    (postVote ⟨[], [⟨1, "Photos", 2, 1, none, 0⟩], [⟨3, 1, some 5⟩], [], []⟩
        3 1 (some 5)).1 = 400 ∧
    (postVote ⟨[], [⟨1, "Photos", 2, 1, none, 0⟩], [⟨3, 1, some 5⟩], [], []⟩
        3 1 (some 5)).2
      = ⟨[], [⟨1, "Photos", 2, 1, none, 0⟩], [⟨3, 1, some 5⟩], [], []⟩ :=
  duplicate_vote_rejected_400
    ⟨[], [⟨1, "Photos", 2, 1, none, 0⟩], [⟨3, 1, some 5⟩], [], []⟩
    3 1 (some 5) ⟨1, "Photos", 2, 1, none, 0⟩ (by decide)
    ⟨⟨3, 1, some 5⟩, by decide, rfl, rfl, rfl⟩

/-! ## C7 — Unvote of a never-cast vote -/

/-- C7: removing a vote the user never cast for the work returns 404 and the
whole state — in particular every `voteCount` and `totalVotes` — is
unchanged. -/
theorem unvote_never_cast_404 (s : AppState) (u wid : Nat)
    (h : ∀ v ∈ s.votes, ¬(v.userId = u ∧ v.workId = wid)) :
    deleteVote s u wid = (404, s) := by
  have hfv : findVote s.votes u wid = none := by
    rw [findVote, List.find?_eq_none]
    intro v hv hb
    simp only [Bool.and_eq_true, beq_iff_eq] at hb
    exact h v hv hb
  simp [deleteVote, hfv]

/-- C7 witness: a concrete store with one vote by user 3 on work 1; user 4
unvoting work 1 gets 404 and the state is untouched. -/
theorem unvote_never_cast_404_witness :
    deleteVote ⟨[], [⟨1, "Photos", 2, 1, none, 0⟩], [⟨3, 1, none⟩], [⟨2, [1], 1⟩],
        []⟩ 4 1
      = (404, ⟨[], [⟨1, "Photos", 2, 1, none, 0⟩], [⟨3, 1, none⟩], [⟨2, [1], 1⟩],
        []⟩) :=
  unvote_never_cast_404
    ⟨[], [⟨1, "Photos", 2, 1, none, 0⟩], [⟨3, 1, none⟩], [⟨2, [1], 1⟩], []⟩ 4 1
    (by decide)

/-! ## C10 — Unvote of an orphaned vote -/

theorem removeFirst_length_of_find? {α : Type} (p : α → Bool) (l : List α)
    (x : α) (hx : l.find? p = some x) :
    (removeFirst p l).length + 1 = l.length := by
  induction l with
  | nil => simp [List.find?] at hx
  | cons a t ih =>
    by_cases hpa : p a
    · simp [removeFirst, hpa]
    · rw [List.find?_cons_of_neg _ hpa] at hx
      simp [removeFirst, hpa, ih hx]

/-- C10: when a Vote for (user, work) exists but the Work document does not,
the unvote still deletes the Vote (the votes list shrinks by one, by dropping
the first matching Vote) and returns 200, with the works and portfolios —
hence all counters — untouched. -/
theorem unvote_orphan_deletes_vote (s : AppState) (u wid : Nat) (v : Vote)
    (hv : findVote s.votes u wid = some v) (hw : findWork s wid = none) :
    (deleteVote s u wid).1 = 200 ∧
    (deleteVote s u wid).2.works = s.works ∧
    (deleteVote s u wid).2.portfolios = s.portfolios ∧
    (deleteVote s u wid).2.votes
      = removeFirst (fun v => v.userId == u && v.workId == wid) s.votes ∧
    (deleteVote s u wid).2.votes.length + 1 = s.votes.length := by
  refine ⟨?_, ?_, ?_, ?_, ?_⟩ <;>
    simp [deleteVote, hv, hw, removeFirst_length_of_find? _ _ _ hv]

/-- C10 witness: orphan vote (user 3, work 1) with no work 1 in the store. -/
theorem unvote_orphan_deletes_vote_witness :
    (deleteVote ⟨[], [], [⟨3, 1, none⟩], [⟨2, [1], 4⟩], []⟩ 3 1).1 = 200 ∧
    (deleteVote ⟨[], [], [⟨3, 1, none⟩], [⟨2, [1], 4⟩], []⟩ 3 1).2.works = [] ∧
    (deleteVote ⟨[], [], [⟨3, 1, none⟩], [⟨2, [1], 4⟩], []⟩ 3 1).2.portfolios
      = [⟨2, [1], 4⟩] ∧
    (deleteVote ⟨[], [], [⟨3, 1, none⟩], [⟨2, [1], 4⟩], []⟩ 3 1).2.votes
      = removeFirst (fun v => v.userId == 3 && v.workId == 1) [⟨3, 1, none⟩] ∧
    (deleteVote ⟨[], [], [⟨3, 1, none⟩], [⟨2, [1], 4⟩], []⟩ 3 1).2.votes.length + 1
      = [(⟨3, 1, none⟩ : Vote)].length :=
  unvote_orphan_deletes_vote ⟨[], [], [⟨3, 1, none⟩], [⟨2, [1], 4⟩], []⟩ 3 1
    ⟨3, 1, none⟩ (by decide) (by decide)

/-! ## C3 — Theme status is a pure function of time -/

/-- C3: for a theme with `startDate < endDate` (both creation and update
reject `start >= end` with 400), the status a read derives — in the Backend
inline chain and in the Login Backend `updateStatus` method alike — is
Upcoming/upcoming when `now < startDate`, Active/active when
`startDate ≤ now ≤ endDate`, and Ended/closed when `now > endDate`; the
derivation ignores the stored status entirely (so nothing but the clock moves
a theme), and the read rewrites only the status field. -/
theorem theme_status_pure_function_of_time (stored : ThemeStatus)
    (startDate endDate now : Int) (th : Theme) (hd : startDate < endDate) :
    (now < startDate →
      newStatusFor stored startDate endDate now = .Upcoming ∧
      updateStatus startDate endDate now = .upcoming) ∧
    (startDate ≤ now → now ≤ endDate →
      newStatusFor stored startDate endDate now = .Active ∧
      updateStatus startDate endDate now = .active) ∧
    (endDate < now →
      newStatusFor stored startDate endDate now = .Ended ∧
      updateStatus startDate endDate now = .closed) ∧
    (∀ stored2, newStatusFor stored2 startDate endDate now
      = newStatusFor stored startDate endDate now) ∧
    (readTheme th now).id = th.id ∧
    (readTheme th now).category = th.category ∧
    (readTheme th now).startDate = th.startDate ∧
    (readTheme th now).endDate = th.endDate ∧
    (readTheme th now).submissions = th.submissions ∧
    (readTheme th now).status
      = newStatusFor th.status th.startDate th.endDate now := by
  refine ⟨?_, ?_, ?_, ?_, rfl, rfl, rfl, rfl, rfl, rfl⟩
  · intro h
    constructor <;> simp [newStatusFor, updateStatus, h]
  · intro h1 h2
    have hn : ¬ now < startDate := not_lt.mpr h1
    constructor <;> simp [newStatusFor, updateStatus, hn, h1, h2]
  · intro h
    have hn : ¬ now < startDate := by omega
    have hn2 : ¬ now ≤ endDate := by omega
    constructor <;> simp [newStatusFor, updateStatus, hn, hn2, h]
  · intro stored2
    rcases lt_or_le now startDate with h | h
    · simp [newStatusFor, h]
    · rcases le_or_lt now endDate with h2 | h2
      · simp [newStatusFor, not_lt.mpr h, h, h2]
      · simp [newStatusFor, not_lt.mpr h, h, not_le.mpr h2, h2]

/-- C3 witness: concrete dates 0 < 10 read at time 20 give Ended/closed. -/
theorem theme_status_pure_function_of_time_witness :
    newStatusFor .Active 0 10 20 = .Ended ∧ updateStatus 0 10 20 = .closed :=
  (theme_status_pure_function_of_time .Active 0 10 20
    ⟨7, "Photos", 0, 10, .Active, []⟩ (by decide)).2.2.1 (by decide)

/-! ## C4 — Winner determination at theme closure -/

/-- Value stored under a key in the `voteCounts` JS object (0 when absent);
reads the first entry with the key, like `bump` writes it. -/
def keyCount : List (Nat × Nat) → Nat → Nat
  | [], _ => 0
  | e :: rest, x => if e.1 = x then e.2 else keyCount rest x

theorem keyCount_bump (w x : Nat) (acc : List (Nat × Nat)) :
    keyCount (bump w acc) x = keyCount acc x + (if x = w then 1 else 0) := by
  induction acc with
  | nil =>
    simp only [bump, keyCount]
    split_ifs <;> omega
  | cons e rest ih =>
    obtain ⟨k, c⟩ := e
    by_cases hkw : k = w
    · rw [bump, if_pos hkw]
      simp only [keyCount]
      split_ifs <;> omega
    · rw [bump, if_neg hkw]
      simp only [keyCount]
      rw [ih]
      split_ifs <;> omega

theorem keyCount_foldl_bump (l : List Nat) :
    ∀ (acc : List (Nat × Nat)) (x : Nat),
      keyCount (l.foldl (fun a w => bump w a) acc) x
        = keyCount acc x + l.count x := by
  induction l with
  | nil => intro acc x; simp
  | cons w rest ih =>
    intro acc x
    rw [List.foldl_cons, ih (bump w acc) x, keyCount_bump, List.count_cons]
    simp only [beq_iff_eq]
    split_ifs <;> omega

theorem tally_keyCount (l : List Nat) (x : Nat) :
    keyCount (tally l) x = l.count x := by
  rw [tally, keyCount_foldl_bump]
  simp [keyCount]

theorem keys_bump_mem (w : Nat) (acc : List (Nat × Nat)) :
    ∀ x ∈ (bump w acc).map Prod.fst, x ∈ acc.map Prod.fst ∨ x = w := by
  induction acc with
  | nil => simp [bump]
  | cons e rest ih =>
    obtain ⟨k, c⟩ := e
    intro x hx
    by_cases hkw : k = w
    · rw [bump, if_pos hkw, List.map_cons] at hx
      rw [List.map_cons]
      rcases List.mem_cons.mp hx with h | h
      · exact Or.inl (List.mem_cons.mpr (Or.inl h))
      · exact Or.inl (List.mem_cons.mpr (Or.inr h))
    · rw [bump, if_neg hkw, List.map_cons] at hx
      rw [List.map_cons]
      rcases List.mem_cons.mp hx with h | h
      · exact Or.inl (List.mem_cons.mpr (Or.inl h))
      · rcases ih x h with h2 | h2
        · exact Or.inl (List.mem_cons.mpr (Or.inr h2))
        · exact Or.inr h2

theorem keys_bump_nodup (w : Nat) (acc : List (Nat × Nat))
    (h : (acc.map Prod.fst).Nodup) : ((bump w acc).map Prod.fst).Nodup := by
  induction acc with
  | nil => simp [bump]
  | cons e rest ih =>
    obtain ⟨k, c⟩ := e
    rw [List.map_cons, List.nodup_cons] at h
    by_cases hkw : k = w
    · subst hkw
      simpa [bump, List.nodup_cons] using h
    · rw [bump, if_neg hkw, List.map_cons, List.nodup_cons]
      refine ⟨?_, ih h.2⟩
      intro hk
      rcases keys_bump_mem w rest k hk with h2 | h2
      · exact h.1 h2
      · exact hkw h2

theorem tally_keys_nodup (l : List Nat) :
    ((tally l).map Prod.fst).Nodup := by
  rw [tally]
  have haux : ∀ (acc : List (Nat × Nat)), (acc.map Prod.fst).Nodup →
      ((l.foldl (fun a w => bump w a) acc).map Prod.fst).Nodup := by
    induction l with
    | nil => intro acc h; exact h
    | cons w rest ih =>
      intro acc h
      rw [List.foldl_cons]
      exact ih (bump w acc) (keys_bump_nodup w acc h)
  exact haux [] (by simp)

theorem keyCount_of_mem_nodupKeys (acc : List (Nat × Nat))
    (h : (acc.map Prod.fst).Nodup) (e : Nat × Nat) (he : e ∈ acc) :
    keyCount acc e.1 = e.2 := by
  induction acc with
  | nil => cases he
  | cons a rest ih =>
    rw [List.map_cons, List.nodup_cons] at h
    rcases List.mem_cons.mp he with heq | hmem
    · subst heq; simp [keyCount]
    · have hne : a.1 ≠ e.1 := by
        intro hfst
        exact h.1 (hfst ▸ List.mem_map_of_mem Prod.fst hmem)
      rw [keyCount, if_neg hne]
      exact ih h.2 hmem

theorem keyCount_pos_mem (acc : List (Nat × Nat)) (x : Nat)
    (h : 0 < keyCount acc x) :
    ∃ e ∈ acc, e.1 = x ∧ e.2 = keyCount acc x := by
  induction acc with
  | nil => simp [keyCount] at h
  | cons a rest ih =>
    by_cases hax : a.1 = x
    · exact ⟨a, List.mem_cons_self a rest, hax, by rw [keyCount, if_pos hax]⟩
    · rw [keyCount, if_neg hax] at h ⊢
      obtain ⟨e, he, h1, h2⟩ := ih h
      exact ⟨e, List.mem_cons_of_mem a he, h1, h2⟩

theorem pickWinner_ge (entries : List (Nat × Nat)) :
    ∀ best : Option Nat × Nat, best.2 ≤ (pickWinner best entries).2 ∧
      ∀ e ∈ entries, e.2 ≤ (pickWinner best entries).2 := by
  induction entries with
  | nil => intro best; exact ⟨le_refl _, by simp⟩
  | cons a rest ih =>
    intro best
    rw [pickWinner]
    have hstep : best.2 ≤ (if best.2 < a.2 then (some a.1, a.2) else best).2 := by
      by_cases h : best.2 < a.2
      · simp only [if_pos h]; omega
      · simp only [if_neg h]; omega
    have hstepa : a.2 ≤ (if best.2 < a.2 then (some a.1, a.2) else best).2 := by
      by_cases h : best.2 < a.2
      · simp only [if_pos h]; omega
      · simp only [if_neg h]; omega
    refine ⟨hstep.trans (ih _).1, ?_⟩
    intro e he
    rcases List.mem_cons.mp he with heq | hmem
    · exact heq ▸ hstepa.trans (ih _).1
    · exact (ih _).2 e hmem

theorem pickWinner_cases (entries : List (Nat × Nat)) :
    ∀ best, pickWinner best entries = best ∨
      ∃ e ∈ entries, pickWinner best entries = (some e.1, e.2) := by
  induction entries with
  | nil => intro best; exact Or.inl rfl
  | cons a rest ih =>
    intro best
    rw [pickWinner]
    rcases ih (if best.2 < a.2 then (some a.1, a.2) else best) with h | ⟨e, he, hr⟩
    · rw [h]
      by_cases hb : best.2 < a.2
      · exact Or.inr ⟨a, List.mem_cons_self a rest, by rw [if_pos hb]⟩
      · exact Or.inl (if_neg hb)
    · exact Or.inr ⟨e, List.mem_cons_of_mem a he, hr⟩

theorem themeVoteCount_eq_count (votes : List Vote) (tid w : Nat) :
    themeVoteCount votes tid w
      = ((votes.filter (fun v => v.themeId == some tid)).map
          (fun v => v.workId)).count w := by
  rw [themeVoteCount, ← List.countP_eq_length_filter, List.count_eq_countP,
    List.countP_map, List.countP_filter]
  congr 1
  funext v
  simp [Function.comp, Bool.and_comm]

/-- C4: on the first read that moves a theme past `endDate` into the closed
state, when at least one theme-scoped Vote exists, the stored winner is a work
whose theme-scoped vote count is maximal over all works; and once a winner is
stored, any later read-transition leaves it untouched. -/
theorem theme_close_stores_maximal_winner (th : VTheme) (votes : List Vote)
    (now : Int) (hd : th.startDate < th.endDate) :
    (th.status ≠ .closed → th.endDate < now → th.winnerWorkId = none →
      votes.filter (fun v => v.themeId == some th.id) ≠ [] →
      ∃ w, (themeListStep th votes now).winnerWorkId = some w ∧
        ∀ w2, themeVoteCount votes th.id w2 ≤ themeVoteCount votes th.id w) ∧
    (∀ w0, th.winnerWorkId = some w0 →
      (themeListStep th votes now).winnerWorkId = some w0) := by
  constructor
  · intro hst hend hwin htv
    have hn1 : ¬ (now < th.startDate ∧ th.status ≠ VStatus.upcoming) := by
      rintro ⟨h, -⟩; omega
    have hn2 : ¬ (th.startDate ≤ now ∧ now ≤ th.endDate ∧
        th.status ≠ VStatus.active) := by
      rintro ⟨-, h, -⟩; omega
    rw [themeListStep, if_neg hn1, if_neg hn2, if_pos ⟨hend, hst⟩]
    have hw1 : ({ th with status := VStatus.closed } : VTheme).winnerWorkId
        = none := hwin
    rw [if_pos hw1, determineWinner]
    set tvotes := votes.filter (fun v => v.themeId == some th.id) with htvdef
    rw [if_neg (by simpa [List.length_eq_zero] using htv)]
    set ids := tvotes.map (fun v => v.workId) with hidsdef
    have hcount : ∀ w2, themeVoteCount votes th.id w2 = ids.count w2 := by
      intro w2
      rw [themeVoteCount_eq_count, hidsdef, htvdef]
    have hentry : ∀ e ∈ tally ids, e.2 = ids.count e.1 := by
      intro e he
      rw [← keyCount_of_mem_nodupKeys (tally ids) (tally_keys_nodup ids) e he,
        tally_keyCount]
    obtain ⟨v0, hv0⟩ := List.exists_mem_of_ne_nil tvotes htv
    have hid0 : v0.workId ∈ ids := List.mem_map_of_mem _ hv0
    have hc0 : 0 < ids.count v0.workId := List.count_pos_iff.mpr hid0
    have hkc0 : 0 < keyCount (tally ids) v0.workId := by
      rw [tally_keyCount]; exact hc0
    obtain ⟨e0, he0, -, he02⟩ := keyCount_pos_mem (tally ids) v0.workId hkc0
    have he0pos : 0 < e0.2 := he02 ▸ hkc0
    have hrpos : 0 < (pickWinner (none, 0) (tally ids)).2 :=
      lt_of_lt_of_le he0pos ((pickWinner_ge (tally ids) (none, 0)).2 e0 he0)
    rcases pickWinner_cases (tally ids) (none, 0) with hr | ⟨e, he, hr⟩
    · rw [hr] at hrpos; exact absurd hrpos (by simp)
    · rw [hr]
      refine ⟨e.1, rfl, ?_⟩
      intro w2
      rw [hcount w2, hcount e.1, ← hentry e he]
      rcases Nat.eq_zero_or_pos (ids.count w2) with hz | hp
      · rw [hz]; exact Nat.zero_le _
      · have hkc2 : 0 < keyCount (tally ids) w2 := by
          rw [tally_keyCount]; exact hp
        obtain ⟨e2, he2, he21, he22⟩ := keyCount_pos_mem (tally ids) w2 hkc2
        have hle := (pickWinner_ge (tally ids) (none, 0)).2 e2 he2
        rw [hr] at hle
        calc ids.count w2 = keyCount (tally ids) w2 := (tally_keyCount ids w2).symm
          _ = e2.2 := he22.symm
          _ ≤ e.2 := hle
  · intro w0 hw0
    rw [themeListStep]
    by_cases h1 : now < th.startDate ∧ th.status ≠ VStatus.upcoming
    · rw [if_pos h1]; exact hw0
    · rw [if_neg h1]
      by_cases h2 : th.startDate ≤ now ∧ now ≤ th.endDate ∧
          th.status ≠ VStatus.active
      · rw [if_pos h2]; exact hw0
      · rw [if_neg h2]
        by_cases h3 : th.endDate < now ∧ th.status ≠ VStatus.closed
        · rw [if_pos h3]
          have : ({ th with status := VStatus.closed } : VTheme).winnerWorkId
              = some w0 := hw0
          rw [if_neg (by rw [this]; exact fun h => Option.noConfusion h)]
          exact this
        · rw [if_neg h3]; exact hw0

/-- C4 witness: theme 7 (dates 0–10) is still `active` with no stored winner
when it is read at time 11; three votes are scoped to it (two for work 200,
one for work 100).  The closing read stores a winner whose theme-scoped vote
count is maximal.  And a theme that already has a stored winner keeps it
across a later read. -/
theorem theme_close_stores_maximal_winner_witness :
    (∃ w, (themeListStep ⟨7, 0, 10, .active, none⟩
        [⟨3, 200, some 7⟩, ⟨4, 200, some 7⟩, ⟨5, 100, some 7⟩] 11).winnerWorkId
          = some w ∧
      ∀ w2, themeVoteCount
            [⟨3, 200, some 7⟩, ⟨4, 200, some 7⟩, ⟨5, 100, some 7⟩] 7 w2
          ≤ themeVoteCount
            [⟨3, 200, some 7⟩, ⟨4, 200, some 7⟩, ⟨5, 100, some 7⟩] 7 w) ∧
    (themeListStep ⟨7, 0, 10, .closed, some 200⟩ [] 11).winnerWorkId
      = some 200 :=
  ⟨(theme_close_stores_maximal_winner ⟨7, 0, 10, .active, none⟩
      [⟨3, 200, some 7⟩, ⟨4, 200, some 7⟩, ⟨5, 100, some 7⟩] 11 (by decide)).1
      (by decide) (by decide) rfl (by decide),
    (theme_close_stores_maximal_winner ⟨7, 0, 10, .closed, some 200⟩ [] 11
      (by decide)).2 200 rfl⟩

/-! ## C5 — Submission precondition chain -/

/-- C5: `POST /api/themes/:id/submit` is fully characterised by its ordered
precondition chain — theme exists (else 404), theme Active (else 400), work
exists (else 404), the session user owns the work (else 403), the work's
category matches the theme's unless the theme's is "All" (else 400), the work
is not already submitted (else 400) — every failure leaving the state
untouched; on success both sides of the link are written: the theme's
submissions list gains the work id and the work's `themeId` points at the
theme. -/
theorem submit_precondition_chain (s : AppState) (sid tid wid : Nat) :
    (findTheme s tid = none → submitWork s sid tid (some wid) = (404, s)) ∧
    (∀ th, findTheme s tid = some th → th.status ≠ .Active →
      submitWork s sid tid (some wid) = (400, s)) ∧
    (∀ th, findTheme s tid = some th → th.status = .Active →
      findWork s wid = none → submitWork s sid tid (some wid) = (404, s)) ∧
    (∀ th w, findTheme s tid = some th → th.status = .Active →
      findWork s wid = some w → w.userId ≠ sid →
      submitWork s sid tid (some wid) = (403, s)) ∧
    (∀ th w, findTheme s tid = some th → th.status = .Active →
      findWork s wid = some w → w.userId = sid →
      th.category ≠ "All" → w.category ≠ th.category →
      submitWork s sid tid (some wid) = (400, s)) ∧
    (∀ th w, findTheme s tid = some th → th.status = .Active →
      findWork s wid = some w → w.userId = sid →
      (th.category = "All" ∨ w.category = th.category) →
      wid ∈ th.submissions → submitWork s sid tid (some wid) = (400, s)) ∧
    (∀ th w, findTheme s tid = some th → th.status = .Active →
      findWork s wid = some w → w.userId = sid →
      (th.category = "All" ∨ w.category = th.category) →
      wid ∉ th.submissions →
      (submitWork s sid tid (some wid)).1 = 200 ∧
      (submitWork s sid tid (some wid)).2.users = s.users ∧
      (submitWork s sid tid (some wid)).2.votes = s.votes ∧
      (submitWork s sid tid (some wid)).2.portfolios = s.portfolios ∧
      findTheme (submitWork s sid tid (some wid)).2 tid
        = some { th with submissions := th.submissions ++ [wid] } ∧
      findWork (submitWork s sid tid (some wid)).2 wid
        = some { w with themeId := some th.id }) := by
  have hcatsplit : ∀ (th : Theme) (w : Work),
      (th.category = "All" ∨ w.category = th.category) →
      ¬ (th.category ≠ "All" ∧ w.category ≠ th.category) := by
    rintro th w (h | h) ⟨h1, h2⟩
    · exact h1 h
    · exact h2 h
  refine ⟨?_, ?_, ?_, ?_, ?_, ?_, ?_⟩
  · intro hth; simp [submitWork, hth]
  · intro th hth hst; simp [submitWork, hth, hst]
  · intro th hth hst hw; simp [submitWork, hth, hst, hw]
  · intro th w hth hst hw hown; simp [submitWork, hth, hst, hw, hown]
  · intro th w hth hst hw hown hcat1 hcat2
    simp [submitWork, hth, hst, hw, hown, hcat1, hcat2]
  · intro th w hth hst hw hown hcat hsub
    simp [submitWork, hth, hst, hw, hown, hcatsplit th w hcat, hsub]
  · intro th w hth hst hw hown hcat hsub
    have hth2 : s.themes.find? (fun t => t.id == tid) = some th := hth
    have hw2 : s.works.find? (fun w2 => w2.id == wid) = some w := hw
    have hthid : (th.id == tid) = true :=
      List.find?_some (p := fun t => t.id == tid) (a := th) hth2
    have hwid : (w.id == wid) = true :=
      List.find?_some (p := fun w2 => w2.id == wid) (a := w) hw2
    have hres : submitWork s sid tid (some wid)
        = (200, { s with
            themes := updateFirst (fun t => t.id == tid)
              (fun t => { t with submissions := t.submissions ++ [wid] })
              s.themes,
            works := updateFirst (fun w2 => w2.id == wid)
              (fun w2 => { w2 with themeId := some th.id }) s.works }) := by
      simp [submitWork, hth, hst, hw, hown, hcatsplit th w hcat, hsub]
    refine ⟨by rw [hres], by rw [hres], by rw [hres], by rw [hres], ?_, ?_⟩
    · rw [hres]
      exact find?_updateFirst_self (fun t => t.id == tid)
        (fun t => { t with submissions := t.submissions ++ [wid] })
        s.themes th hth2 hthid
    · rw [hres]
      exact find?_updateFirst_self (fun w2 => w2.id == wid)
        (fun w2 => { w2 with themeId := some th.id }) s.works w hw2 hwid

/-- C5 witness: user 2 submits their work 1 (Photos) to the Active Photos
theme 7; the result is 200 and both sides of the link are written. -/
theorem submit_precondition_chain_witness :
    (submitWork ⟨[], [⟨1, "Photos", 2, 0, none, 0⟩], [], [],
        [⟨7, "Photos", 0, 10, .Active, []⟩]⟩ 2 7 (some 1)).1 = 200 ∧
    (submitWork ⟨[], [⟨1, "Photos", 2, 0, none, 0⟩], [], [],
        [⟨7, "Photos", 0, 10, .Active, []⟩]⟩ 2 7 (some 1)).2.users = [] ∧
    (submitWork ⟨[], [⟨1, "Photos", 2, 0, none, 0⟩], [], [],
        [⟨7, "Photos", 0, 10, .Active, []⟩]⟩ 2 7 (some 1)).2.votes = [] ∧
    (submitWork ⟨[], [⟨1, "Photos", 2, 0, none, 0⟩], [], [],
        [⟨7, "Photos", 0, 10, .Active, []⟩]⟩ 2 7 (some 1)).2.portfolios = [] ∧
    findTheme (submitWork ⟨[], [⟨1, "Photos", 2, 0, none, 0⟩], [], [],
        [⟨7, "Photos", 0, 10, .Active, []⟩]⟩ 2 7 (some 1)).2 7
      = some ⟨7, "Photos", 0, 10, .Active, [1]⟩ ∧
    findWork (submitWork ⟨[], [⟨1, "Photos", 2, 0, none, 0⟩], [], [],
        [⟨7, "Photos", 0, 10, .Active, []⟩]⟩ 2 7 (some 1)).2 1
      = some ⟨1, "Photos", 2, 0, some 7, 0⟩ :=
  (submit_precondition_chain ⟨[], [⟨1, "Photos", 2, 0, none, 0⟩], [], [],
      [⟨7, "Photos", 0, 10, .Active, []⟩]⟩ 2 7 1).2.2.2.2.2.2
    ⟨7, "Photos", 0, 10, .Active, []⟩ ⟨1, "Photos", 2, 0, none, 0⟩
    (by decide) rfl (by decide) rfl (Or.inr rfl) (by decide)

/-! ## C6 — Work deletion cascade -/

/-- C6 (counterexample): work 1 (owned by user 2) is referenced by theme 7's
submissions list; its owner deletes it.  The deletion succeeds and the work
and its Portfolio reference are gone, but theme 7's submissions list still
holds id 1 — the claimed removal from Theme submission lists never happens. -/
theorem delete_work_theme_refs_remain_cex :
    (deleteWork ⟨[⟨2, "member"⟩], [⟨1, "Photos", 2, 0, none, 0⟩], [],
        [⟨2, [1], 0⟩], [⟨7, "Photos", 0, 10, .Active, [1]⟩]⟩ 2 1).1 = 200 ∧
    (deleteWork ⟨[⟨2, "member"⟩], [⟨1, "Photos", 2, 0, none, 0⟩], [],
        [⟨2, [1], 0⟩], [⟨7, "Photos", 0, 10, .Active, [1]⟩]⟩ 2 1).2.works = [] ∧
    (deleteWork ⟨[⟨2, "member"⟩], [⟨1, "Photos", 2, 0, none, 0⟩], [],
        [⟨2, [1], 0⟩], [⟨7, "Photos", 0, 10, .Active, [1]⟩]⟩ 2 1).2.portfolios
      = [⟨2, [], 0⟩] ∧
    (deleteWork ⟨[⟨2, "member"⟩], [⟨1, "Photos", 2, 0, none, 0⟩], [],
        [⟨2, [1], 0⟩], [⟨7, "Photos", 0, 10, .Active, [1]⟩]⟩ 2 1).2.themes
      = [⟨7, "Photos", 0, 10, .Active, [1]⟩] := by
  decide

theorem updateFirst_pull_works (uid wid : Nat) (l : List Portfolio)
    (hpair : l.Pairwise (fun a b => a.userId ≠ b.userId)) :
    ∀ q ∈ updateFirst (fun p => p.userId == uid)
        (fun p => { p with works := p.works.filter (fun w => w ≠ wid) }) l,
      q.userId = uid → wid ∉ q.works := by
  induction l with
  | nil => intro q hq; simp [updateFirst] at hq
  | cons a t ih =>
    obtain ⟨ha, ht⟩ := List.pairwise_cons.mp hpair
    intro q hq hquid
    rw [updateFirst] at hq
    by_cases hpa : (a.userId == uid) = true
    · rw [if_pos hpa] at hq
      rcases List.mem_cons.mp hq with h | h
      · subst h; simp [List.mem_filter]
      · exact absurd (hquid.trans (beq_iff_eq.mp hpa).symm).symm (ha q h)
    · rw [if_neg hpa] at hq
      rcases List.mem_cons.mp hq with h | h
      · subst h; exact absurd hquid (by simpa using hpa)
      · exact ih ht q h hquid

/-- C6 (amended): deleting a Work (as owner or admin) returns 200, removes the
Work document, removes the Work's id from its owner's Portfolio works list
(portfolios have a unique `userId`), and leaves every Theme — in particular
any submissions list referencing the Work — completely untouched. -/
theorem delete_work_removes_portfolio_ref_only (s : AppState) (sid wid : Nat)
    (work : Work) (user : User) (hw : findWork s wid = some work)
    (hu : findUser s sid = some user)
    (hown : work.userId = sid ∨ user.userType = "admin")
    (hpair : s.portfolios.Pairwise (fun a b => a.userId ≠ b.userId)) :
    (deleteWork s sid wid).1 = 200 ∧
    (deleteWork s sid wid).2.themes = s.themes ∧
    (deleteWork s sid wid).2.votes = s.votes ∧
    (deleteWork s sid wid).2.users = s.users ∧
    (deleteWork s sid wid).2.works
      = removeFirst (fun w2 => w2.id == wid) s.works ∧
    (∀ p ∈ (deleteWork s sid wid).2.portfolios,
      p.userId = work.userId → wid ∉ p.works) := by
  have hown2 : ¬ (work.userId ≠ sid ∧ user.userType ≠ "admin") := by
    rcases hown with h | h
    · rintro ⟨h1, -⟩; exact h1 h
    · rintro ⟨-, h2⟩; exact h2 h
  have hres : deleteWork s sid wid
      = (200, { s with
          works := removeFirst (fun w2 => w2.id == wid) s.works,
          portfolios := updateFirst (fun p => p.userId == work.userId)
            (fun p => { p with works := p.works.filter (fun w => w ≠ wid) })
            s.portfolios }) := by
    simp [deleteWork, hw, hu, hown2]
  refine ⟨by rw [hres], by rw [hres], by rw [hres], by rw [hres],
    by rw [hres], ?_⟩
  rw [hres]
  exact updateFirst_pull_works work.userId wid s.portfolios hpair

/-- C6 witness: the amended theorem applied at the counterexample store. -/
theorem delete_work_removes_portfolio_ref_only_witness :
    (deleteWork ⟨[⟨2, "member"⟩], [⟨1, "Photos", 2, 0, none, 0⟩], [],
        [⟨2, [1], 0⟩], [⟨7, "Photos", 0, 10, .Active, [1]⟩]⟩ 2 1).1 = 200 ∧
    (deleteWork ⟨[⟨2, "member"⟩], [⟨1, "Photos", 2, 0, none, 0⟩], [],
        [⟨2, [1], 0⟩], [⟨7, "Photos", 0, 10, .Active, [1]⟩]⟩ 2 1).2.themes
      = [⟨7, "Photos", 0, 10, .Active, [1]⟩] ∧
    (deleteWork ⟨[⟨2, "member"⟩], [⟨1, "Photos", 2, 0, none, 0⟩], [],
        [⟨2, [1], 0⟩], [⟨7, "Photos", 0, 10, .Active, [1]⟩]⟩ 2 1).2.votes = [] ∧
    (deleteWork ⟨[⟨2, "member"⟩], [⟨1, "Photos", 2, 0, none, 0⟩], [],
        [⟨2, [1], 0⟩], [⟨7, "Photos", 0, 10, .Active, [1]⟩]⟩ 2 1).2.users
      = [⟨2, "member"⟩] ∧
    (deleteWork ⟨[⟨2, "member"⟩], [⟨1, "Photos", 2, 0, none, 0⟩], [],
        [⟨2, [1], 0⟩], [⟨7, "Photos", 0, 10, .Active, [1]⟩]⟩ 2 1).2.works
      = removeFirst (fun w2 => w2.id == 1) [⟨1, "Photos", 2, 0, none, 0⟩] ∧
    (∀ p ∈ (deleteWork ⟨[⟨2, "member"⟩], [⟨1, "Photos", 2, 0, none, 0⟩], [],
        [⟨2, [1], 0⟩], [⟨7, "Photos", 0, 10, .Active, [1]⟩]⟩ 2 1).2.portfolios,
      p.userId = (⟨1, "Photos", 2, 0, none, 0⟩ : Work).userId → 1 ∉ p.works) :=
  delete_work_removes_portfolio_ref_only
    ⟨[⟨2, "member"⟩], [⟨1, "Photos", 2, 0, none, 0⟩], [],
      [⟨2, [1], 0⟩], [⟨7, "Photos", 0, 10, .Active, [1]⟩]⟩ 2 1
    ⟨1, "Photos", 2, 0, none, 0⟩ ⟨2, "member"⟩ (by decide) (by decide)
    (Or.inl rfl) (by simp)

/-! ## C8 — Counters never go negative -/

theorem postVote_countersNonneg (s : AppState) (u wid : Nat) (t : Option Nat)
    (h : countersNonneg s) : countersNonneg (postVote s u wid t).2 := by
  obtain ⟨hw, hp⟩ := h
  cases hfw : findWork s wid with
  | none => simpa [postVote, hfw] using ⟨hw, hp⟩
  | some work =>
    cases hfv : findVote s.votes u wid with
    | some v => simpa [postVote, hfw, hfv] using ⟨hw, hp⟩
    | none =>
      simp only [postVote, hfw, hfv]
      refine ⟨?_, ?_⟩
      · exact updateFirst_forall _ _ _ hw
          (fun x hx => by show (0:Int) ≤ x.voteCount + 1; omega)
      · exact updateFirst_forall _ _ _ hp
          (fun x hx => by show (0:Int) ≤ x.totalVotes + 1; omega)

theorem deleteVote_countersNonneg (s : AppState) (u wid : Nat)
    (h : countersNonneg s) : countersNonneg (deleteVote s u wid).2 := by
  obtain ⟨hw, hp⟩ := h
  cases hfv : findVote s.votes u wid with
  | none => simpa [deleteVote, hfv] using ⟨hw, hp⟩
  | some v =>
    cases hfw : findWork s wid with
    | none => simpa [deleteVote, hfv, hfw] using ⟨hw, hp⟩
    | some work =>
      simp only [deleteVote, hfv, hfw]
      refine ⟨?_, ?_⟩
      · exact updateFirst_forall _ _ _ hw
          (fun x _ => le_max_right (x.voteCount - 1) 0)
      · exact updateFirst_forall _ _ _ hp
          (fun x _ => le_max_right (x.totalVotes - 1) 0)

theorem submitWork_countersNonneg (s : AppState) (sid tid : Nat)
    (wid : Option Nat) (h : countersNonneg s) :
    countersNonneg (submitWork s sid tid wid).2 := by
  obtain ⟨hw, hp⟩ := h
  unfold submitWork
  repeat' split
  all_goals try exact ⟨hw, hp⟩
  exact ⟨updateFirst_forall _ _ _ hw (fun x hx => hx), hp⟩

theorem deleteWork_countersNonneg (s : AppState) (sid wid : Nat)
    (h : countersNonneg s) : countersNonneg (deleteWork s sid wid).2 := by
  obtain ⟨hw, hp⟩ := h
  unfold deleteWork
  repeat' split
  all_goals try exact ⟨hw, hp⟩
  refine ⟨?_, ?_⟩
  · exact fun x hx =>
      hw x (List.Sublist.subset (removeFirst_sublist _ _) hx)
  · exact updateFirst_forall _ _ _ hp (fun x hx => hx)

theorem applyOp_countersNonneg (s : AppState) (op : Op)
    (h : countersNonneg s) : countersNonneg (applyOp s op) := by
  cases op with
  | vote u w t => exact postVote_countersNonneg s u w t h
  | unvote u w => exact deleteVote_countersNonneg s u w h
  | submit sid tid wid => exact submitWork_countersNonneg s sid tid (some wid) h
  | delWork sid wid => exact deleteWork_countersNonneg s sid wid h

/-- C8: across any sequence of vote / unvote / submit / delete-work
operations, every Work's `voteCount` and every Portfolio's `totalVotes` stay
non-negative — vote removal decrements through `Math.max(_ - 1, 0)`. -/
theorem counters_stay_nonneg (ops : List Op) :
    ∀ s : AppState, countersNonneg s → countersNonneg (runOps s ops) := by
  induction ops with
  | nil => intro s h; exact h
  | cons op rest ih =>
    intro s h
    exact ih (applyOp s op) (applyOp_countersNonneg s op h)

/-- C8 witness: vote once then unvote twice on a concrete store. -/
theorem counters_stay_nonneg_witness :
    countersNonneg (runOps
      ⟨[], [⟨1, "Photos", 2, 0, none, 0⟩], [], [⟨2, [1], 0⟩], []⟩
      [Op.vote 3 1 none, Op.unvote 3 1, Op.unvote 3 1]) :=
  counters_stay_nonneg [Op.vote 3 1 none, Op.unvote 3 1, Op.unvote 3 1]
    ⟨[], [⟨1, "Photos", 2, 0, none, 0⟩], [], [⟨2, [1], 0⟩], []⟩
    ⟨by decide, by decide⟩

/-! ## C9 — Vote key uniqueness -/

theorem countVotesKey_append (l1 l2 : List Vote) (u w : Nat) (t : Option Nat) :
    countVotesKey (l1 ++ l2) u w t
      = countVotesKey l1 u w t + countVotesKey l2 u w t := by
  rw [countVotesKey, countVotesKey, countVotesKey, List.filter_append,
    List.length_append]

theorem countVotesKey_zero_of_no_pair (l : List Vote) (u w : Nat)
    (t : Option Nat) (h : ∀ v ∈ l, ¬(v.userId = u ∧ v.workId = w)) :
    countVotesKey l u w t = 0 := by
  rw [countVotesKey, List.length_eq_zero, List.filter_eq_nil_iff]
  intro v hv
  have := h v hv
  simp only [Bool.and_eq_true, beq_iff_eq]
  tauto

theorem countVotesKey_singleton_le (v : Vote) (u w : Nat) (t : Option Nat) :
    countVotesKey [v] u w t ≤ 1 := by
  rw [countVotesKey]
  cases hb : (v.userId == u && v.workId == w && v.themeId == t) <;>
    simp [List.filter, hb]

theorem countVotesKey_append_new_le (votes : List Vote) (u w : Nat)
    (t key : Option Nat) (u2 w2 : Nat)
    (hcnt : countVotesKey votes u2 w2 key ≤ 1)
    (hnone : ∀ v ∈ votes, ¬(v.userId = u ∧ v.workId = w)) :
    countVotesKey (votes ++ [⟨u, w, t⟩]) u2 w2 key ≤ 1 := by
  rw [countVotesKey_append]
  by_cases hm : u2 = u ∧ w2 = w
  · have hz : countVotesKey votes u2 w2 key = 0 := by
      apply countVotesKey_zero_of_no_pair
      intro v hv hb
      exact hnone v hv ⟨hb.1.trans hm.1, hb.2.trans hm.2⟩
    have hs := countVotesKey_singleton_le ⟨u, w, t⟩ u2 w2 key
    omega
  · have hz : countVotesKey [⟨u, w, t⟩] u2 w2 key = 0 := by
      apply countVotesKey_zero_of_no_pair
      intro v hv hb
      rw [List.mem_singleton] at hv
      subst hv
      exact hm ⟨hb.1.symm, hb.2.symm⟩
    omega

theorem countVotesKey_sublist_le (l1 l2 : List Vote)
    (hsub : List.Sublist l1 l2) (u w : Nat) (t : Option Nat) :
    countVotesKey l1 u w t ≤ countVotesKey l2 u w t := by
  rw [countVotesKey, countVotesKey]
  exact List.Sublist.length_le (List.Sublist.filter _ hsub)

theorem postVote_voteKeyUnique (s : AppState) (u wid : Nat) (t : Option Nat)
    (h : VoteKeyUnique s.votes) : VoteKeyUnique (postVote s u wid t).2.votes := by
  obtain ⟨h1, h2⟩ := h
  cases hfw : findWork s wid with
  | none => simpa [postVote, hfw] using ⟨h1, h2⟩
  | some work =>
    cases hfv : findVote s.votes u wid with
    | some v => simpa [postVote, hfw, hfv] using ⟨h1, h2⟩
    | none =>
      have hnone : ∀ v ∈ s.votes, ¬(v.userId = u ∧ v.workId = wid) := by
        intro v hv hb
        have := List.find?_eq_none.mp hfv v hv
        simp [hb.1, hb.2] at this
      simp only [postVote, hfw, hfv]
      exact ⟨fun u2 w2 =>
          countVotesKey_append_new_le s.votes u wid t none u2 w2 (h1 u2 w2) hnone,
        fun u2 w2 t2 =>
          countVotesKey_append_new_le s.votes u wid t (some t2) u2 w2
            (h2 u2 w2 t2) hnone⟩

theorem deleteVote_voteKeyUnique (s : AppState) (u wid : Nat)
    (h : VoteKeyUnique s.votes) :
    VoteKeyUnique (deleteVote s u wid).2.votes := by
  obtain ⟨h1, h2⟩ := h
  cases hfv : findVote s.votes u wid with
  | none => simpa [deleteVote, hfv] using ⟨h1, h2⟩
  | some v =>
    have hsub := removeFirst_sublist
      (fun v => v.userId == u && v.workId == wid) s.votes
    cases hfw : findWork s wid with
    | none =>
      simp only [deleteVote, hfv, hfw]
      exact ⟨fun u2 w2 => le_trans (countVotesKey_sublist_le _ _ hsub u2 w2 none)
          (h1 u2 w2),
        fun u2 w2 t2 => le_trans (countVotesKey_sublist_le _ _ hsub u2 w2 (some t2))
          (h2 u2 w2 t2)⟩
    | some work =>
      simp only [deleteVote, hfv, hfw]
      exact ⟨fun u2 w2 => le_trans (countVotesKey_sublist_le _ _ hsub u2 w2 none)
          (h1 u2 w2),
        fun u2 w2 t2 => le_trans (countVotesKey_sublist_le _ _ hsub u2 w2 (some t2))
          (h2 u2 w2 t2)⟩

theorem submitWork_votes_eq (s : AppState) (sid tid : Nat) (wid : Option Nat) :
    (submitWork s sid tid wid).2.votes = s.votes := by
  unfold submitWork
  repeat' split
  all_goals rfl

theorem deleteWork_votes_eq (s : AppState) (sid wid : Nat) :
    (deleteWork s sid wid).2.votes = s.votes := by
  unfold deleteWork
  repeat' split
  all_goals rfl

theorem applyOp_voteKeyUnique (s : AppState) (op : Op)
    (h : VoteKeyUnique s.votes) : VoteKeyUnique (applyOp s op).votes := by
  cases op with
  | vote u w t => exact postVote_voteKeyUnique s u w t h
  | unvote u w => exact deleteVote_voteKeyUnique s u w h
  | submit sid tid wid => exact (submitWork_votes_eq s sid tid (some wid)).symm ▸ h
  | delWork sid wid => exact (deleteWork_votes_eq s sid wid).symm ▸ h

theorem runOps_voteKeyUnique (ops : List Op) :
    ∀ s : AppState, VoteKeyUnique s.votes →
      VoteKeyUnique (runOps s ops).votes := by
  induction ops with
  | nil => intro s h; exact h
  | cons op rest ih =>
    intro s h
    exact ih (applyOp s op) (applyOp_voteKeyUnique s op h)

/-- C9: every store state reachable through the modelled routes from an empty
Vote collection carries at most one unscoped Vote per (user, work) pair and at
most one scoped Vote per (user, work, theme) triple — the handler's duplicate
pre-check never inserts a second Vote for a (user, work) pair, realising what
the unique indexes on the Vote collection enforce. -/
theorem vote_key_unique_reachable (s : AppState) (h : Reachable s) :
    VoteKeyUnique s.votes := by
  obtain ⟨init, ops, hinit, rfl⟩ := h
  apply runOps_voteKeyUnique
  rw [hinit]
  exact ⟨fun u w => by simp [countVotesKey], fun u w t => by simp [countVotesKey]⟩

/-- C9 witness: a store reached by one vote operation from an empty Vote
collection. -/
theorem vote_key_unique_reachable_witness :
    VoteKeyUnique (runOps ⟨[], [⟨1, "Photos", 2, 0, none, 0⟩], [], [], []⟩
      [Op.vote 3 1 none]).votes :=
  vote_key_unique_reachable
    (runOps ⟨[], [⟨1, "Photos", 2, 0, none, 0⟩], [], [], []⟩ [Op.vote 3 1 none])
    ⟨⟨[], [⟨1, "Photos", 2, 0, none, 0⟩], [], [], []⟩, [Op.vote 3 1 none],
      rfl, rfl⟩

end LenteXhibit
